import Mathlib

/-!
Shallow embedding of the halo-tracker gateway core: the pricing cache and
resolver, the cost calculator, response-body decoding, usage extraction,
usage-log record construction, the single-flight cache refresh discipline,
and the two read-side aggregation endpoints, translated from the Express
server source.  Machine numbers are modelled as integers and rationals;
external codecs and JSON parsing are modelled as abstract functions.
-/

/-- `String.toLowerCase()`, mapping `Char.toLower` over the characters. -/
def jsToLower (s : String) : String := String.mk (s.data.map Char.toLower)

/-- `s.startsWith(pre)`. -/
def strStartsWith (s pre : String) : Bool := pre.data.isPrefixOf s.data

/-- `s.endsWith(suf)`. -/
def strEndsWith (s suf : String) : Bool := suf.data.isSuffixOf s.data

/-- `s.trim()`: whitespace stripped from both ends. -/
def strTrim (s : String) : String :=
  String.mk (((s.data.dropWhile Char.isWhitespace).reverse.dropWhile Char.isWhitespace).reverse)

/-- Substring search on character lists. -/
def hasSubstr : List Char → List Char → Bool
  | [], pat => pat.isEmpty
  | c :: t, pat => pat.isPrefixOf (c :: t) || hasSubstr t pat

/-- JS `a || d` on an optional string: a missing or empty string is falsy. -/
def jsOrStr (a : Option String) (d : String) : String :=
  match a with
  | some s => if s = "" then d else s
  | none => d

/-- Rounding to 3 decimal places, modelling `parseFloat(x.toFixed(3))`. -/
def round3 (q : ℚ) : ℚ := ((round (q * 1000) : ℤ) : ℚ) / 1000

/-- Rounding to 4 decimal places, modelling `parseFloat(x.toFixed(4))`. -/
def round4 (q : ℚ) : ℚ := ((round (q * 10000) : ℤ) : ℚ) / 10000

/-- Rounding to 1 decimal place, modelling `x.toFixed(1)`. -/
def round1 (q : ℚ) : ℚ := ((round (q * 10) : ℤ) : ℚ) / 10

/-- A pricing rate held in the cache: per-token rates derived at load time. -/
structure Rate where
  input : ℚ
  output : ℚ
  cachedInput : ℚ
deriving DecidableEq

/-- The in-memory pricing cache, a map from rate key to rate
(modelled as an association list with first-match lookup). -/
abbrev PricingCache := List (String × Rate)

/-- The normalized lookup key built in `ensurePricingCache`/`getPricingRate`. -/
def rateKey (tier category model : String) : String :=
  tier ++ ":" ++ category ++ ":" ++ model

/-- `Map.get`: first (most recent) binding of the key. -/
def cacheGet (cache : PricingCache) (k : String) : Option Rate :=
  (cache.find? (fun p => p.1 == k)).map (fun p => p.2)

/-- `Map.set`: later writes shadow earlier ones. -/
def mapSet (cache : PricingCache) (kv : String × Rate) : PricingCache :=
  kv :: cache.filter (fun p => !(p.1 == kv.1))

/-- A row of the `model_pricing` table as selected by `ensurePricingCache`. -/
structure PricingRow where
  model : Option String
  tier : Option String
  category : Option String
  input_per_million : Option ℚ
  output_per_million : Option ℚ
  cached_input_per_million : Option ℚ
deriving DecidableEq

/-- One iteration of the `data.forEach` loop in `ensurePricingCache`:
normalize the key parts and divide the per-million rates by 1,000,000. -/
def loadRow (row : PricingRow) : String × Rate :=
  (rateKey (jsToLower (jsOrStr row.tier "standard")) (jsToLower (jsOrStr row.category "text"))
      (jsToLower (row.model.getD "")),
   { input := row.input_per_million.getD 0 / 1000000,
     output := row.output_per_million.getD 0 / 1000000,
     cachedInput := row.cached_input_per_million.getD 0 / 1000000 })

/-- The cache built from the pricing table rows by `ensurePricingCache`. -/
def buildCache (rows : List PricingRow) : PricingCache :=
  rows.foldl (fun m row => mapSet m (loadRow row)) []

/-- Stripping a trailing `-latest` suffix from an already lower-cased model. -/
def stripLatest (s : String) : String :=
  if strEndsWith s "-latest" then s.dropRight 7 else s

/-- Whether an 11-character suffix matches `-YYYY-MM-DD`. -/
def isDateSuffix : List Char → Bool
  | ['-', y1, y2, y3, y4, '-', m1, m2, '-', d1, d2] =>
      y1.isDigit && y2.isDigit && y3.isDigit && y4.isDigit &&
      m1.isDigit && m2.isDigit && d1.isDigit && d2.isDigit
  | _ => false

/-- Stripping a trailing ISO date suffix `-YYYY-MM-DD` from the model. -/
def stripDate (s : String) : String :=
  if isDateSuffix (s.data.drop (s.length - 11)) then
    String.mk (s.data.take (s.length - 11))
  else s

/-- `getPricingRate(model, tier, category)` from the server source: lower-case
everything, look up the exact key, then retry with the `-latest` suffix and
the trailing ISO date suffix stripped.  A falsy model resolves to nothing. -/
def getPricingRate (cache : PricingCache) (model tier category : String) : Option Rate :=
  if model = "" then none
  else
    let normalizedModel := jsToLower model
    let normalizedTier := jsToLower tier
    let normalizedCategory := jsToLower category
    match cacheGet cache (rateKey normalizedTier normalizedCategory normalizedModel) with
    | some r => some r
    | none =>
      let withoutLatest := stripLatest normalizedModel
      let withoutDate := stripDate normalizedModel
      match cacheGet cache (rateKey normalizedTier normalizedCategory withoutLatest) with
      | some r => some r
      | none => cacheGet cache (rateKey normalizedTier normalizedCategory withoutDate)

/-- `calculateCost(model, input, output, tier, category)` from the server source. -/
def calculateCost (cache : PricingCache) (model : String) (input output : ℚ)
    (tier category : String) : ℚ :=
  match getPricingRate cache model tier category with
  | none => 0
  | some rate => input * rate.input + output * rate.output

/-- The provider-reported `usage` object of a JSON response body. -/
structure Usage where
  prompt_tokens : Option Int
  completion_tokens : Option Int
deriving DecidableEq

/-- The decoded JSON response body, restricted to the fields the server reads. -/
structure ResponseBody where
  model : Option String
  usage : Option Usage
deriving DecidableEq

/-- The caller-supplied routing metadata headers the interceptor reads. -/
structure ReqHeaders where
  x_model : Option String
  x_pricing_tier : Option String
  x_input_tokens : Option Int
  x_output_tokens : Option Int
  x_user_id : Option String
  x_service_name : Option String
deriving DecidableEq

/-- Token extraction from the `proxyRes` handler: the provider-reported usage
object wins; otherwise the caller-supplied fallback headers, defaulting to 0. -/
def extractTokens (body : ResponseBody) (hdr : ReqHeaders) : Int × Int :=
  match body.usage with
  | some u => (u.prompt_tokens.getD 0, u.completion_tokens.getD 0)
  | none => (hdr.x_input_tokens.getD 0, hdr.x_output_tokens.getD 0)

/-- `req.headers['x-model'] || responseData.model || 'unknown'` from the source. -/
def resolveModel (hdr : ReqHeaders) (body : ResponseBody) : String :=
  jsOrStr hdr.x_model (jsOrStr body.model "unknown")

/-- The row inserted into `api_usage_logs` by the usage log writer. -/
structure InsertPayload where
  user_id : String
  service_name : String
  endpoint : String
  status_code : Int
  latency_ms : Int
  model : String
  input_tokens : Int
  output_tokens : Int
  estimated_cost : ℚ
deriving DecidableEq

/-- Construction of the `api_usage_logs` insert payload from the `proxyRes`
handler (model resolution, token extraction, cost computation, latency). -/
def buildRecord (cache : PricingCache) (hdr : ReqHeaders) (body : ResponseBody)
    (url : String) (status : Int) (startTime endTime : Nat) : InsertPayload :=
  let model := resolveModel hdr body
  let pricingTier := jsOrStr hdr.x_pricing_tier "standard"
  let toks := extractTokens body hdr
  { user_id := jsOrStr hdr.x_user_id "test_user",
    service_name := jsOrStr hdr.x_service_name "Unknown Service",
    endpoint := url,
    status_code := status,
    latency_ms := (endTime : Int) - (startTime : Int),
    model := model,
    input_tokens := toks.1,
    output_tokens := toks.2,
    estimated_cost := calculateCost cache model (toks.1 : ℚ) (toks.2 : ℚ) pricingTier "text" }

/-- The external decompression library (zlib) and UTF-8 decoding, abstract:
each decoder either succeeds with a string or throws. -/
structure Codecs where
  utf8 : List Nat → String
  gunzip : List Nat → Option String
  inflate : List Nat → Option String
  brotli : List Nat → Option String

/-- `rawBody.trim().startsWith('\x7b') || rawBody.trim().startsWith('[')`. -/
def looksLikeJson (s : String) : Bool :=
  strStartsWith (strTrim s) "\x7b" || strStartsWith (strTrim s) "["

/-- `rawBody.trim().startsWith('\x7b')`, the stop check of the fallback chain. -/
def startsBrace (s : String) : Bool := strStartsWith (strTrim s) "\x7b"

/-- `buffer[0] === 0x1f && buffer[1] === 0x8b`. -/
def gzipMagic (buf : List Nat) : Bool :=
  buf.head? == some 31 && buf.get? 1 == some 139

/-- The first decode attempt, driven by the Content-Encoding header; on a
decoder throw the raw buffer is decoded as UTF-8 instead. -/
def headerDecode (c : Codecs) (enc : Option String) (buf : List Nat) : String :=
  let contentEncoding := jsToLower (enc.getD "")
  if contentEncoding = "gzip" then (c.gunzip buf).getD (c.utf8 buf)
  else if contentEncoding = "deflate" then (c.inflate buf).getD (c.utf8 buf)
  else if contentEncoding = "br" then (c.brotli buf).getD (c.utf8 buf)
  else c.utf8 buf

/-- Gzip magic-byte sniffing step of the fallback chain. -/
def sniffStage (c : Codecs) (buf : List Nat) (s : String) : String :=
  if gzipMagic buf then (c.gunzip buf).getD s else s

/-- Brotli step: retried while the current text is empty or does not start
with a left brace. -/
def brotliStage (c : Codecs) (buf : List Nat) (s : String) : String :=
  if s = "" ∨ startsBrace s = false then (c.brotli buf).getD s else s

/-- Deflate step: same guard as the brotli step. -/
def inflateStage (c : Codecs) (buf : List Nat) (s : String) : String :=
  if s = "" ∨ startsBrace s = false then (c.inflate buf).getD s else s

/-- The whole decode pipeline of the `proxyRes` handler. -/
def decodeBody (c : Codecs) (enc : Option String) (buf : List Nat) : String :=
  let rawBody := headerDecode c enc buf
  if looksLikeJson rawBody then rawBody
  else inflateStage c buf (brotliStage c buf (sniffStage c buf rawBody))

/-- The decode pipeline as claim C9 words it: the fallback chain stops at the
first result that looks like JSON (starts with a left brace or a left bracket
after trimming).  Stated for comparison with `decodeBody`. -/
def specDecodeC9 (c : Codecs) (enc : Option String) (buf : List Nat) : String :=
  let rawBody := headerDecode c enc buf
  if looksLikeJson rawBody then rawBody
  else
    let s1 := sniffStage c buf rawBody
    let s2 := if looksLikeJson s1 then s1 else (c.brotli buf).getD s1
    if looksLikeJson s2 then s2 else (c.inflate buf).getD s2

/-- `s.includes(pat)`. -/
def containsSub (s pat : String) : Bool := hasSubstr s.data pat.data

/-- `proxyRes.headers['content-type']?.includes('application/json')`. -/
def ctIncludesJson (ct : Option String) : Bool :=
  match ct with
  | some s => containsSub s "application/json"
  | none => false

/-- The buffered upstream response observed by the `proxyRes` handler. -/
structure UpstreamResponse where
  statusCode : Int
  content_type : Option String
  content_encoding : Option String
  bodyChunks : List (List Nat)

/-- The accounting side of the `proxyRes` handler: buffer, decode, and -- for
JSON content types whose body parses -- build the insert payload.  JSON
parsing is abstract (`pj`); a parse failure is caught and skips accounting. -/
def handleProxyRes (c : Codecs) (pj : String → Option ResponseBody)
    (cache : PricingCache) (hdr : ReqHeaders) (url : String) (startTime endTime : Nat)
    (up : UpstreamResponse) : Option InsertPayload :=
  let buffer := up.bodyChunks.flatten
  let rawBody := decodeBody c up.content_encoding buffer
  if ctIncludesJson up.content_type then
    match pj rawBody with
    | some responseData => some (buildRecord cache hdr responseData url up.statusCode startTime endTime)
    | none => none
  else none

/-- A completed proxied exchange: the response delivered to the caller (the
handler never writes to `res`, so the proxy pipes the upstream status and
bytes through unchanged) paired with the persisted record, which is dropped
when the insert fails (`insertOk = false`). -/
def proxyExchange (c : Codecs) (pj : String → Option ResponseBody)
    (cache : PricingCache) (hdr : ReqHeaders) (url : String) (startTime endTime : Nat)
    (up : UpstreamResponse) (insertOk : Bool) : (Int × List Nat) × Option InsertPayload :=
  ((up.statusCode, up.bodyChunks.flatten),
   match handleProxyRes c pj cache hdr url startTime endTime up with
   | some payload => if insertOk then some payload else none
   | none => none)

/-- `PRICING_CACHE_TTL_MS = 5 * 60 * 1000`. -/
def PRICING_CACHE_TTL_MS : Nat := 5 * 60 * 1000

/-- The module-level mutable state of the pricing cache. -/
structure CacheState where
  cacheSize : Nat
  loadedAt : Nat
  loading : Bool
deriving DecidableEq

/-- What a single `ensurePricingCache` call does before its first `await`. -/
inductive EnsureAction
  | fresh
  | joined
  | started
deriving DecidableEq

/-- The synchronous prefix of `ensurePricingCache`, which the JS event loop
runs atomically: return if the cache is nonempty and young, join an in-flight
reload, or start a reload (setting `pricingCacheLoading`). -/
def ensureSyncStep (now : Nat) (s : CacheState) : CacheState × EnsureAction :=
  if s.cacheSize ≠ 0 ∧ now - s.loadedAt < PRICING_CACHE_TTL_MS then (s, EnsureAction.fresh)
  else if s.loading then (s, EnsureAction.joined)
  else ({ s with loading := true }, EnsureAction.started)

/-- `n` simultaneous `ensurePricingCache` calls: each synchronous prefix runs
to completion before the next starts, and no reload finishes in between. -/
def runEnsures (now : Nat) : CacheState → Nat → CacheState × List EnsureAction
  | s, 0 => (s, [])
  | s, n + 1 =>
    let step := ensureSyncStep now s
    let rest := runEnsures now step.1 n
    (rest.1, step.2 :: rest.2)

/-- A persisted `api_usage_logs` row as read back by the two GET endpoints. -/
structure LogRecord where
  user_id : Option String
  service_name : Option String
  endpoint : Option String
  status_code : Int
  latency_ms : Option Int
  model : Option String
  input_tokens : Option Int
  output_tokens : Option Int
  token_input : Option Int
  token_output : Option Int
  estimated_cost : Option ℚ
  created_at : Nat
deriving DecidableEq

/-- `Number(log.estimated_cost || 0)`. -/
def recCost (r : LogRecord) : ℚ := r.estimated_cost.getD 0

/-- The UTC calendar day of `created_at` (milliseconds since epoch), as
produced by `new Date(log.created_at).toISOString().split('T')[0]`. -/
def recordDay (r : LogRecord) : Nat := r.created_at / 86400000

/-- `log.input_tokens ?? log.token_input ?? 0`. -/
def recInTokens (r : LogRecord) : Int :=
  (r.input_tokens.orElse (fun _ => r.token_input)).getD 0

/-- `log.output_tokens ?? log.token_output ?? 0`. -/
def recOutTokens (r : LogRecord) : Int :=
  (r.output_tokens.orElse (fun _ => r.token_output)).getD 0

/-- One day's accumulator in the `/api/usage` grouping object. -/
structure DayGroup where
  day : Nat
  hits : Nat
  cost : ℚ
deriving DecidableEq

section Grouping

variable {ρ γ κ : Type} [DecidableEq κ]

/-- One step of a keyed JS-object grouping fold: update the (unique) group
with the record's key, or append a fresh group at the end. -/
def upsertGroup (key : ρ → κ) (gkey : γ → κ) (ini : ρ → γ) (upd : γ → ρ → γ) :
    List γ → ρ → List γ
  | [], r => [ini r]
  | g :: gs, r =>
    if gkey g = key r then upd g r :: gs
    else g :: upsertGroup key gkey ini upd gs r

/-- Grouping a full record list, in encounter order. -/
def groupAll (key : ρ → κ) (gkey : γ → κ) (ini : ρ → γ) (upd : γ → ρ → γ)
    (records : List ρ) : List γ :=
  records.foldl (upsertGroup key gkey ini upd) []

end Grouping

section Sorting

variable {α : Type}

/-- Stable insertion into a sorted list: `cond b a` means the already placed
`b` stays in front of the incoming `a`. -/
def insSorted (cond : α → α → Bool) (a : α) : List α → List α
  | [] => [a]
  | b :: l => if cond b a then b :: insSorted cond a l else a :: b :: l

/-- Stable insertion sort, modelling `Array.prototype.sort` with a strict
comparator-derived order. -/
def sortByCond (cond : α → α → Bool) : List α → List α
  | [] => []
  | a :: l => insSorted cond a (sortByCond cond l)

end Sorting

/-- The fresh group made for a day on its first record (`daily_hits = 1`). -/
def dayIni (r : LogRecord) : DayGroup :=
  { day := recordDay r, hits := 1, cost := recCost r }

/-- The `+= 1` / `+= cost` update of an existing day group. -/
def dayUpd (g : DayGroup) (r : LogRecord) : DayGroup :=
  { g with hits := g.hits + 1, cost := g.cost + recCost r }

/-- The `dailyData` object of the `/api/usage` endpoint. -/
def groupDaily (records : List LogRecord) : List DayGroup :=
  groupAll recordDay (fun g => g.day) dayIni dayUpd records

/-- Comparator `new Date(a.day) - new Date(b.day)`: ascending by day. -/
def dayCond (a b : DayGroup) : Bool := decide (a.day < b.day)

/-- The grouped days sorted ascending. -/
def dailySorted (records : List LogRecord) : List DayGroup :=
  sortByCond dayCond (groupDaily records)

/-- One element of the `/api/usage` response array. -/
structure DailyAgg where
  day : Nat
  daily_hits : Nat
  daily_cost : ℚ
  accumulative_total : Nat
deriving DecidableEq

/-- The final `.map` of `/api/usage`: running total and 3-decimal rounding. -/
def accumulateDaily (t : Nat) : List DayGroup → List DailyAgg
  | [] => []
  | g :: l =>
    { day := g.day, daily_hits := g.hits, daily_cost := round3 g.cost,
      accumulative_total := t + g.hits } :: accumulateDaily (t + g.hits) l

/-- The full `/api/usage` aggregation over the persisted record set. -/
def dailyUsage (records : List LogRecord) : List DailyAgg :=
  accumulateDaily 0 (dailySorted records)

/-- The `service::endpoint::user` grouping key of `/api/services`. -/
def svcKey (r : LogRecord) : String :=
  jsOrStr r.service_name "Unknown Service" ++ "::" ++ jsOrStr r.endpoint "/" ++ "::" ++
    jsOrStr r.user_id "Unknown"

/-- One group's accumulator in the `/api/services` grouping object. -/
structure SvcGroup where
  service_name : String
  endpoint : String
  user_id : String
  total_hits : Nat
  success_count : Nat
  error_count : Nat
  total_latency : Int
  last_used : Nat
  cost_sum : ℚ
  in_tokens : Int
  out_tokens : Int
deriving DecidableEq

/-- The grouping key a service group was stored under. -/
def sgKey (g : SvcGroup) : String :=
  g.service_name ++ "::" ++ g.endpoint ++ "::" ++ g.user_id

/-- The zero-valued group created when a key is first seen. -/
def svcZero (r : LogRecord) : SvcGroup :=
  { service_name := jsOrStr r.service_name "Unknown Service",
    endpoint := jsOrStr r.endpoint "/",
    user_id := jsOrStr r.user_id "Unknown",
    total_hits := 0, success_count := 0, error_count := 0,
    total_latency := 0, last_used := r.created_at, cost_sum := 0,
    in_tokens := 0, out_tokens := 0 }

/-- The per-record update of a service group (hits, status counts, latency,
cost -- stored cost if positive, else recomputed -- tokens, last-used). -/
def svcUpd (cache : PricingCache) (g : SvcGroup) (r : LogRecord) : SvcGroup :=
  let storedCost := recCost r
  let computedCost := calculateCost cache (jsOrStr r.model "default")
      ((recInTokens r : ℤ) : ℚ) ((recOutTokens r : ℤ) : ℚ) "standard" "text"
  { g with
    total_hits := g.total_hits + 1,
    success_count := g.success_count + (if 200 ≤ r.status_code ∧ r.status_code < 300 then 1 else 0),
    error_count := g.error_count + (if 200 ≤ r.status_code ∧ r.status_code < 300 then 0 else 1),
    total_latency := g.total_latency + r.latency_ms.getD 0,
    cost_sum := g.cost_sum + (if 0 < storedCost then storedCost else computedCost),
    in_tokens := g.in_tokens + recInTokens r,
    out_tokens := g.out_tokens + recOutTokens r,
    last_used := if g.last_used < r.created_at then r.created_at else g.last_used }

/-- A key's group after its first record. -/
def svcFirst (cache : PricingCache) (r : LogRecord) : SvcGroup :=
  svcUpd cache (svcZero r) r

/-- The `serviceBreakdown` object of `/api/services`. -/
def svcGroups (cache : PricingCache) (records : List LogRecord) : List SvcGroup :=
  groupAll svcKey sgKey (svcFirst cache) (svcUpd cache) records

/-- One element of the `/api/services` response array. -/
structure SvcAgg where
  service_name : String
  endpoint : String
  user_id : String
  total_hits : Nat
  success_count : Nat
  error_count : Nat
  avg_latency : Int
  total_latency : Int
  last_used : Nat
  success_rate : ℚ
  estimated_cost : ℚ
  total_input_tokens : Int
  total_output_tokens : Int
  total_tokens : Int
deriving DecidableEq

/-- The final `.map` of `/api/services`: averages, rates and rounding. -/
def finalizeService (g : SvcGroup) : SvcAgg :=
  { service_name := g.service_name, endpoint := g.endpoint, user_id := g.user_id,
    total_hits := g.total_hits, success_count := g.success_count,
    error_count := g.error_count,
    avg_latency := if 0 < g.total_hits then round ((g.total_latency : ℚ) / (g.total_hits : ℚ)) else 0,
    total_latency := g.total_latency,
    last_used := g.last_used,
    success_rate := if 0 < g.total_hits then round1 (((g.success_count : ℚ) / (g.total_hits : ℚ)) * 100) else 0,
    estimated_cost := round4 g.cost_sum,
    total_input_tokens := g.in_tokens,
    total_output_tokens := g.out_tokens,
    total_tokens := g.in_tokens + g.out_tokens }

/-- The grouping key of a finalized aggregate. -/
def saKey (a : SvcAgg) : String :=
  a.service_name ++ "::" ++ a.endpoint ++ "::" ++ a.user_id

/-- Comparator `b.total_hits - a.total_hits`: descending by hits. -/
def svcCond (a b : SvcAgg) : Bool := decide (b.total_hits < a.total_hits)

/-- All aggregates, sorted descending by total hits, before pagination. -/
def svcAggregatedSorted (cache : PricingCache) (records : List LogRecord) : List SvcAgg :=
  sortByCond svcCond ((svcGroups cache records).map finalizeService)

/-- `Math.min(Number(req.query.limit || 500), 500)` (query pre-parsed). -/
def servicesLimit (limitQ : Option Int) : Int := min (limitQ.getD 500) 500

/-- `Math.max(Number(req.query.offset || 0), 0)` (query pre-parsed). -/
def servicesOffset (offsetQ : Option Int) : Int := max (offsetQ.getD 0) 0

/-- The full `/api/services` endpoint: aggregate everything, sort, and only
then `slice(offset, offset + limit)`. -/
def servicesEndpoint (cache : PricingCache) (records : List LogRecord)
    (limitQ offsetQ : Option Int) : List SvcAgg :=
  ((svcAggregatedSorted cache records).drop (servicesOffset offsetQ).toNat).take
    (servicesLimit limitQ).toNat

/-- A minimal persisted record used by the concrete test cases. -/
def mkLog (svc : String) (created : Nat) : LogRecord :=
  { user_id := some "u", service_name := some svc, endpoint := some "/e",
    status_code := 200, latency_ms := some 0, model := none,
    input_tokens := some 0, output_tokens := some 0, token_input := none,
    token_output := none, estimated_cost := some 0, created_at := created }

/-- Three records on day 1 and two on day 2 (claim C5's example). -/
def recs5 : List LogRecord :=
  [mkLog "S" 86400000, mkLog "S" 86400000, mkLog "S" 86400000,
   mkLog "S" 172800000, mkLog "S" 172800000]

/-- Aggregates ranked A:10, B:7, C:3 (claim C6's example). -/
def recsABC : List LogRecord :=
  List.replicate 10 (mkLog "A" 0) ++ List.replicate 7 (mkLog "B" 0) ++
    List.replicate 3 (mkLog "C" 0)

/-- The aggregate for service B expected by claim C6's example. -/
def aggB : SvcAgg :=
  { service_name := "B", endpoint := "/e", user_id := "u", total_hits := 7,
    success_count := 7, error_count := 0, avg_latency := 0, total_latency := 0,
    last_used := 0, success_rate := 100, estimated_cost := 0,
    total_input_tokens := 0, total_output_tokens := 0, total_tokens := 0 }

/-- A sample rate used by concrete test cases. -/
def rate0 : Rate := { input := 5 / 1000000, output := 15 / 1000000, cachedInput := 0 / 1000000 }

/-- A cache holding a rate under the key of the empty model name. -/
def cacheEmptyModel : PricingCache := [("standard:text:", rate0)]

/-- A cache holding a rate stored under `standard:text:gpt-4`. -/
def cacheGpt4 : PricingCache := [("standard:text:gpt-4", rate0)]

/-- A pricing table with one row for `gpt-4` (5 and 15 dollars per million). -/
def rows0 : List PricingRow :=
  [{ model := some "gpt-4", tier := none, category := none,
     input_per_million := some 5, output_per_million := some 15,
     cached_input_per_million := none }]

/-- Headers carrying a negative fallback input-token count. -/
def hdrNeg : ReqHeaders :=
  { x_model := none, x_pricing_tier := none, x_input_tokens := some (-5),
    x_output_tokens := some 0, x_user_id := none, x_service_name := none }

/-- Headers carrying a model hint. -/
def hdrHeaderModel : ReqHeaders :=
  { x_model := some "header-model", x_pricing_tier := none, x_input_tokens := none,
    x_output_tokens := none, x_user_id := none, x_service_name := none }

/-- A body reporting its own model name and no usage object. -/
def bodyBodyModel : ResponseBody := { model := some "body-model", usage := none }

/-- A body with usage promptTokens = 100, completionTokens = 50. -/
def bodyUsage10050 : ResponseBody :=
  { model := none, usage := some { prompt_tokens := some 100, completion_tokens := some 50 } }

/-- A body with no usage object. -/
def bodyNoUsage : ResponseBody := { model := none, usage := none }

/-- Headers with fallback inputTokens = 999. -/
def hdr999 : ReqHeaders :=
  { x_model := none, x_pricing_tier := none, x_input_tokens := some 999,
    x_output_tokens := none, x_user_id := none, x_service_name := none }

/-- Headers with fallback inputTokens = 200, outputTokens = 80. -/
def hdr20080 : ReqHeaders :=
  { x_model := none, x_pricing_tier := none, x_input_tokens := some 200,
    x_output_tokens := some 80, x_user_id := none, x_service_name := none }

/-- Codecs for which the gzip sniff yields a JSON array and brotli an object. -/
def codecs0 : Codecs :=
  { utf8 := fun _ => "binary", gunzip := fun _ => some "[1, 2]",
    inflate := fun _ => none, brotli := fun _ => some "\x7b\x7d" }

/-- A buffer starting with the gzip magic bytes. -/
def buf0 : List Nat := [31, 139]

lemma mapSet_mem {m : PricingCache} {kv p : String × Rate} (h : p ∈ mapSet m kv) :
    p = kv ∨ p ∈ m := by
  rcases List.mem_cons.mp h with h | h
  · exact Or.inl h
  · exact Or.inr (List.mem_of_mem_filter h)

lemma buildCache_mem_aux {p : String × Rate} (rows : List PricingRow) :
    ∀ m0 : PricingCache, p ∈ rows.foldl (fun m row => mapSet m (loadRow row)) m0 →
      p ∈ m0 ∨ ∃ row ∈ rows, p = loadRow row := by
  induction rows with
  | nil => intro m0 h; exact Or.inl h
  | cons row rows ih =>
    intro m0 h
    rcases ih (mapSet m0 (loadRow row)) h with h1 | h1
    · rcases mapSet_mem h1 with h2 | h2
      · exact Or.inr ⟨row, List.mem_cons_self _ _, h2⟩
      · exact Or.inl h2
    · obtain ⟨row2, hmem, he⟩ := h1
      exact Or.inr ⟨row2, List.mem_cons_of_mem _ hmem, he⟩

lemma buildCache_mem {rows : List PricingRow} {p : String × Rate}
    (h : p ∈ buildCache rows) : ∃ row ∈ rows, p = loadRow row := by
  rcases buildCache_mem_aux rows [] h with h1 | h1
  · simp at h1
  · exact h1

lemma cacheGet_mem {cache : PricingCache} {k : String} {r : Rate}
    (h : cacheGet cache k = some r) : ∃ p ∈ cache, p.2 = r := by
  unfold cacheGet at h
  cases hf : cache.find? (fun p => p.1 == k) with
  | none => rw [hf] at h; simp at h
  | some p =>
    rw [hf] at h
    simp only [Option.map_some'] at h
    exact ⟨p, List.mem_of_find?_eq_some hf, by injection h⟩

lemma getPricingRate_mem {cache : PricingCache} {model tier category : String} {r : Rate}
    (h : getPricingRate cache model tier category = some r) :
    ∃ k, cacheGet cache k = some r := by
  simp only [getPricingRate] at h
  split at h
  · exact absurd h (by simp)
  · split at h
    next r1 heq =>
      injection h with h2
      exact ⟨_, h2 ▸ heq⟩
    next heq1 =>
      split at h
      next r2 heq2 =>
        injection h with h2
        exact ⟨_, h2 ▸ heq2⟩
      next heq2 => exact ⟨_, h⟩

/-- C1: token extraction uses the provider-reported usage object when present
(missing fields default to zero, fallbacks ignored) and otherwise the
caller-supplied fallback headers, defaulting to zero; in particular usage
(100, 50) with fallback 999 yields (100, 50), and no usage with fallbacks
(200, 80) yields (200, 80). -/
theorem C1_usage_extraction (body : ResponseBody) (hdr : ReqHeaders) :
    (∀ u, body.usage = some u →
      extractTokens body hdr = (u.prompt_tokens.getD 0, u.completion_tokens.getD 0)) ∧
    (body.usage = none →
      extractTokens body hdr = (hdr.x_input_tokens.getD 0, hdr.x_output_tokens.getD 0)) ∧
    extractTokens bodyUsage10050 hdr999 = (100, 50) ∧
    extractTokens bodyNoUsage hdr20080 = (200, 80) := by
  refine ⟨?_, ?_, by decide, by decide⟩
  · intro u hu; simp [extractTokens, hu]
  · intro hu; simp [extractTokens, hu]

theorem C1_usage_extraction_witness :
    bodyUsage10050.usage = some { prompt_tokens := some 100, completion_tokens := some 50 } ∧
    extractTokens bodyUsage10050 hdr999 = (100, 50) :=
  ⟨by decide,
   (C1_usage_extraction bodyUsage10050 hdr999).1
     { prompt_tokens := some 100, completion_tokens := some 50 } (by decide)⟩

/-- C2 counterexample: with a caller model hint and a provider-reported model
both present, the code resolves to the header hint, not the body model as the
claim states. -/
theorem C2_model_resolution_counterexample :
    resolveModel hdrHeaderModel bodyBodyModel = "header-model" ∧
    resolveModel hdrHeaderModel bodyBodyModel ≠ "body-model" := by
  constructor
  · decide
  · decide

/-- C2 amended: the model identifier is resolved as the caller-supplied model
hint header first; if that is absent (or empty), the provider-reported model
name in the body; if both are absent, the literal "unknown". -/
theorem C2_model_resolution (hdr : ReqHeaders) (body : ResponseBody) :
    (∀ m, hdr.x_model = some m → m ≠ "" → resolveModel hdr body = m) ∧
    ((hdr.x_model = none ∨ hdr.x_model = some "") →
      ∀ b, body.model = some b → b ≠ "" → resolveModel hdr body = b) ∧
    ((hdr.x_model = none ∨ hdr.x_model = some "") →
      (body.model = none ∨ body.model = some "") → resolveModel hdr body = "unknown") := by
  refine ⟨?_, ?_, ?_⟩
  · intro m hm hne; simp [resolveModel, jsOrStr, hm, hne]
  · rintro (h | h) b hb hbne <;> simp [resolveModel, jsOrStr, h, hb, hbne]
  · rintro (h | h) (h2 | h2) <;> simp [resolveModel, jsOrStr, h, h2]

theorem C2_model_resolution_witness :
    resolveModel hdrHeaderModel bodyBodyModel = "header-model" :=
  (C2_model_resolution hdrHeaderModel bodyBodyModel).1 "header-model" rfl (by decide)

/-- C3 counterexample: with a rate stored under the key of the empty model
name, resolving the empty model returns no rate even though all three lookup
keys are present in the cache, contradicting "resolution fails only if all
three keys are absent". -/
theorem C3_pricing_lookup_counterexample :
    getPricingRate cacheEmptyModel "" "standard" "text" = none ∧
    cacheGet cacheEmptyModel
      (rateKey (jsToLower "standard") (jsToLower "text") (jsToLower "")) = some rate0 ∧
    cacheGet cacheEmptyModel
      (rateKey (jsToLower "standard") (jsToLower "text") (stripLatest (jsToLower ""))) = some rate0 ∧
    cacheGet cacheEmptyModel
      (rateKey (jsToLower "standard") (jsToLower "text") (stripDate (jsToLower ""))) = some rate0 :=
  ⟨rfl, rfl, rfl, rfl⟩

/-- C3 amended: for every non-empty model, pricing resolution lower-cases the
triple, looks up `tier:category:model`, retries with the `-latest` suffix and
then the ISO date suffix stripped, fails exactly when all three keys are
absent, and finds a rate stored under `standard:text:gpt-4` when resolving
`gpt-4-2024-05-13` or `gpt-4-latest`; an empty (falsy) model always fails. -/
theorem C3_pricing_lookup (cache : PricingCache) (model tier category : String)
    (hm : model ≠ "") :
    (getPricingRate cache model tier category = none ↔
      cacheGet cache (rateKey (jsToLower tier) (jsToLower category) (jsToLower model)) = none ∧
      cacheGet cache (rateKey (jsToLower tier) (jsToLower category) (stripLatest (jsToLower model))) = none ∧
      cacheGet cache (rateKey (jsToLower tier) (jsToLower category) (stripDate (jsToLower model))) = none) ∧
    (∀ r, cacheGet cache (rateKey (jsToLower tier) (jsToLower category) (jsToLower model)) = some r →
      getPricingRate cache model tier category = some r) ∧
    (∀ r, cacheGet cache (rateKey (jsToLower tier) (jsToLower category) (jsToLower model)) = none →
      cacheGet cache (rateKey (jsToLower tier) (jsToLower category) (stripLatest (jsToLower model))) = some r →
      getPricingRate cache model tier category = some r) ∧
    (∀ r, cacheGet cache (rateKey (jsToLower tier) (jsToLower category) (jsToLower model)) = none →
      cacheGet cache (rateKey (jsToLower tier) (jsToLower category) (stripLatest (jsToLower model))) = none →
      cacheGet cache (rateKey (jsToLower tier) (jsToLower category) (stripDate (jsToLower model))) = some r →
      getPricingRate cache model tier category = some r) ∧
    getPricingRate cacheGpt4 "gpt-4-2024-05-13" "standard" "text" = some rate0 ∧
    getPricingRate cacheGpt4 "gpt-4-latest" "standard" "text" = some rate0 := by
  have base : getPricingRate cache model tier category =
      match cacheGet cache (rateKey (jsToLower tier) (jsToLower category) (jsToLower model)) with
      | some r => some r
      | none =>
        match cacheGet cache (rateKey (jsToLower tier) (jsToLower category) (stripLatest (jsToLower model))) with
        | some r => some r
        | none => cacheGet cache (rateKey (jsToLower tier) (jsToLower category) (stripDate (jsToLower model))) := by
    simp only [getPricingRate, if_neg hm]
  refine ⟨?_, ?_, ?_, ?_, by rfl, by rfl⟩
  · rw [base]
    cases h1 : cacheGet cache (rateKey (jsToLower tier) (jsToLower category) (jsToLower model)) with
    | some r => simp [h1]
    | none =>
      cases h2 : cacheGet cache (rateKey (jsToLower tier) (jsToLower category) (stripLatest (jsToLower model))) with
      | some r => simp [h2]
      | none => simp [h2]
  · intro r h; rw [base, h]
  · intro r h1 h2; rw [base, h1, h2]
  · intro r h1 h2 h3; rw [base, h1, h2, h3]

theorem C3_pricing_lookup_witness :
    getPricingRate cacheGpt4 "gpt-4-2024-05-13" "standard" "text" = some rate0 ∧
    ("gpt-4-2024-05-13" : String) ≠ "" :=
  ⟨(C3_pricing_lookup cacheGpt4 "gpt-4-2024-05-13" "standard" "text" (by decide)).2.2.2.2.1,
   by decide⟩

/-- C4: the cost calculator is pure arithmetic -- with a resolved rate the
cost is inputTokens times the per-token input rate plus outputTokens times
the per-token output rate, each per-token rate being a stored per-million
rate divided by 1,000,000 at cache-load time -- and every input on which no
rate resolves yields cost exactly zero. -/
theorem C4_cost_calculator (rows : List PricingRow) (model : String)
    (input output : ℚ) (tier category : String) :
    (getPricingRate (buildCache rows) model tier category = none →
      calculateCost (buildCache rows) model input output tier category = 0) ∧
    (∀ r, getPricingRate (buildCache rows) model tier category = some r →
      calculateCost (buildCache rows) model input output tier category =
        input * r.input + output * r.output ∧
      ∃ row ∈ rows,
        r.input = row.input_per_million.getD 0 / 1000000 ∧
        r.output = row.output_per_million.getD 0 / 1000000) := by
  constructor
  · intro h; simp [calculateCost, h]
  · intro r h
    refine ⟨by simp [calculateCost, h], ?_⟩
    obtain ⟨k, hk⟩ := getPricingRate_mem h
    obtain ⟨p, hp, h2⟩ := cacheGet_mem hk
    obtain ⟨row, hrow, hpl⟩ := buildCache_mem hp
    refine ⟨row, hrow, ?_, ?_⟩
    · rw [← h2, hpl]; rfl
    · rw [← h2, hpl]; rfl

theorem C4_cost_calculator_witness :
    calculateCost (buildCache rows0) "gpt-4" 100 50 "standard" "text" =
      100 * ((5 : ℚ) / 1000000) + 50 * ((15 : ℚ) / 1000000) := by
  have h := ((C4_cost_calculator rows0 "gpt-4" 100 50 "standard" "text").2 rate0 (by rfl)).1
  simpa [rate0] using h

/-- C7: the response delivered to the original caller (status code and body
bytes) is the upstream response, identical whether the usage-record insert
succeeds or fails; accounting failures never change what is delivered. -/
theorem C7_persistence_isolation (c : Codecs) (pj : String → Option ResponseBody)
    (cache : PricingCache) (hdr : ReqHeaders) (url : String) (startTime endTime : Nat)
    (up : UpstreamResponse) :
    (proxyExchange c pj cache hdr url startTime endTime up true).1 =
      (proxyExchange c pj cache hdr url startTime endTime up false).1 ∧
    ∀ insertOk, (proxyExchange c pj cache hdr url startTime endTime up insertOk).1 =
      (up.statusCode, up.bodyChunks.flatten) :=
  ⟨rfl, fun _ => rfl⟩

/-- C8 counterexample: a caller-supplied fallback header of -5 is recorded
as-is, so the written record violates inputTokens ≥ 0. -/
theorem C8_record_invariant_counterexample :
    (buildRecord [] hdrNeg bodyNoUsage "/v1/chat" 200 0 10).input_tokens = -5 ∧
    (buildRecord [] hdrNeg bodyNoUsage "/v1/chat" 200 0 10).input_tokens < 0 := by
  constructor
  · decide
  · decide

/-- C8 amended: every written UsageRecord satisfies inputTokens ≥ 0,
outputTokens ≥ 0, estimatedCost ≥ 0 and latencyMs ≥ 0, provided the
provider-reported token counts and the caller-supplied fallback token headers
are nonnegative, the response end time is not before the start time, and the
cached rates are nonnegative; a negative fallback header is recorded as-is
and breaks the invariant. -/
theorem C8_record_invariant (cache : PricingCache) (hdr : ReqHeaders) (body : ResponseBody)
    (url : String) (status : Int) (startTime endTime : Nat)
    (hbody : ∀ u, body.usage = some u →
      0 ≤ u.prompt_tokens.getD 0 ∧ 0 ≤ u.completion_tokens.getD 0)
    (hin : 0 ≤ hdr.x_input_tokens.getD 0) (hout : 0 ≤ hdr.x_output_tokens.getD 0)
    (htime : startTime ≤ endTime)
    (hcache : ∀ k r, cacheGet cache k = some r → 0 ≤ r.input ∧ 0 ≤ r.output) :
    0 ≤ (buildRecord cache hdr body url status startTime endTime).input_tokens ∧
    0 ≤ (buildRecord cache hdr body url status startTime endTime).output_tokens ∧
    0 ≤ (buildRecord cache hdr body url status startTime endTime).estimated_cost ∧
    0 ≤ (buildRecord cache hdr body url status startTime endTime).latency_ms := by
  have htoks : 0 ≤ (extractTokens body hdr).1 ∧ 0 ≤ (extractTokens body hdr).2 := by
    cases hu : body.usage with
    | some u =>
      have := hbody u hu
      simpa [extractTokens, hu] using this
    | none => simpa [extractTokens, hu] using ⟨hin, hout⟩
  have hcost : ∀ m t, 0 ≤ calculateCost cache m ((extractTokens body hdr).1 : ℚ)
      ((extractTokens body hdr).2 : ℚ) t "text" := by
    intro m t
    unfold calculateCost
    cases h : getPricingRate cache m t "text" with
    | none => simp
    | some r =>
      obtain ⟨k, hk⟩ := getPricingRate_mem h
      obtain ⟨hri, hro⟩ := hcache k r hk
      have h1 : (0 : ℚ) ≤ ((extractTokens body hdr).1 : ℚ) := by exact_mod_cast htoks.1
      have h2 : (0 : ℚ) ≤ ((extractTokens body hdr).2 : ℚ) := by exact_mod_cast htoks.2
      simpa using add_nonneg (mul_nonneg h1 hri) (mul_nonneg h2 hro)
  refine ⟨htoks.1, htoks.2, hcost _ _, ?_⟩
  simp only [buildRecord]
  have : (startTime : Int) ≤ (endTime : Int) := by exact_mod_cast htime
  omega

theorem C8_record_invariant_witness :
    0 ≤ (buildRecord [] hdr20080 bodyNoUsage "/e" 200 0 10).input_tokens ∧
    0 ≤ (buildRecord [] hdr20080 bodyNoUsage "/e" 200 0 10).latency_ms := by
  have h := C8_record_invariant [] hdr20080 bodyNoUsage "/e" 200 0 10
    (by intro u hu; simp [bodyNoUsage] at hu)
    (by decide) (by decide) (by decide)
    (by intro k r hr; simp [cacheGet] at hr)
  exact ⟨h.1, h.2.2.2⟩

/-- C9 counterexample: with a gzip-magic buffer whose gzip sniff decodes to
the JSON array text "[1, 2]" and whose brotli decode yields an object, the
code keeps going past the array (its fallback chain only stops at a left
brace) and returns the brotli result, while the claimed rule stops at the
first JSON-looking result. -/
theorem C9_decode_order_counterexample :
    decodeBody codecs0 none buf0 = "\x7b\x7d" ∧
    specDecodeC9 codecs0 none buf0 = "[1, 2]" ∧
    looksLikeJson "[1, 2]" = true ∧
    decodeBody codecs0 none buf0 ≠ specDecodeC9 codecs0 none buf0 := by
  refine ⟨by rfl, by rfl, by rfl, by decide⟩

/-- C9 amended: decoding first applies the codec named by the
Content-Encoding header (gzip, deflate or brotli, falling back to plain UTF-8
text when that decode throws or no codec matches); if the resulting text does
not look like JSON (does not start with a brace or bracket after trimming),
gzip magic-byte sniffing is attempted, then the brotli and deflate decoders
in that fixed order, but each later step is skipped only when the current
text starts with a left brace after trimming (is nonempty and brace-led) --
a bracket-led result does not stop the fallback chain. -/
theorem C9_decode_order (c : Codecs) (enc : Option String) (buf : List Nat) :
    (looksLikeJson (headerDecode c enc buf) = true →
      decodeBody c enc buf = headerDecode c enc buf) ∧
    (looksLikeJson (headerDecode c enc buf) = false →
      decodeBody c enc buf =
        inflateStage c buf (brotliStage c buf (sniffStage c buf (headerDecode c enc buf)))) ∧
    (enc = some "gzip" → headerDecode c enc buf = (c.gunzip buf).getD (c.utf8 buf)) ∧
    (enc = some "deflate" → headerDecode c enc buf = (c.inflate buf).getD (c.utf8 buf)) ∧
    (enc = some "br" → headerDecode c enc buf = (c.brotli buf).getD (c.utf8 buf)) ∧
    (enc = none → headerDecode c enc buf = c.utf8 buf) ∧
    (gzipMagic buf = true → ∀ s, sniffStage c buf s = (c.gunzip buf).getD s) ∧
    (gzipMagic buf = false → ∀ s, sniffStage c buf s = s) ∧
    (∀ s, s ≠ "" → startsBrace s = true → brotliStage c buf s = s ∧ inflateStage c buf s = s) ∧
    (∀ s, s = "" ∨ startsBrace s = false →
      brotliStage c buf s = (c.brotli buf).getD s ∧
      inflateStage c buf s = (c.inflate buf).getD s) := by
  refine ⟨?_, ?_, ?_, ?_, ?_, ?_, ?_, ?_, ?_, ?_⟩
  · intro h; simp [decodeBody, h]
  · intro h; simp [decodeBody, h]
  · intro h; subst h; rfl
  · intro h; subst h; rfl
  · intro h; subst h; rfl
  · intro h; subst h; rfl
  · intro h s; simp [sniffStage, h]
  · intro h s; simp [sniffStage, h]
  · intro s h1 h2; constructor <;> simp [brotliStage, inflateStage, h1, h2]
  · intro s h; constructor <;> simp [brotliStage, inflateStage, h]

theorem C9_decode_order_witness :
    brotliStage codecs0 buf0 "\x7b\x7d" = "\x7b\x7d" ∧
    inflateStage codecs0 buf0 "\x7b\x7d" = "\x7b\x7d" :=
  ((C9_decode_order codecs0 none buf0).2.2.2.2.2.2.2.2.1) "\x7b\x7d" (by decide) (by rfl)

/-- C10: the synchronous prefix of the cache-refresh routine is single-flight:
a resolve attempt that finds the cache empty or stale while a reload is in
flight joins it without starting another, and any number of simultaneous
resolve attempts against an empty or stale cache start exactly one reload
(the first call), all later ones joining it. -/
theorem C10_single_flight (s : CacheState) (now n : Nat)
    (hstale : s.cacheSize = 0 ∨ PRICING_CACHE_TTL_MS ≤ now - s.loadedAt)
    (hnl : s.loading = false) (hn : 1 ≤ n) :
    ((runEnsures now s n).2.count EnsureAction.started) = 1 ∧
    (runEnsures now s n).2.head? = some EnsureAction.started ∧
    (∀ s2 : CacheState, (s2.cacheSize = 0 ∨ PRICING_CACHE_TTL_MS ≤ now - s2.loadedAt) →
      s2.loading = true → ensureSyncStep now s2 = (s2, EnsureAction.joined)) := by
  have hstep : ∀ s2 : CacheState, (s2.cacheSize = 0 ∨ PRICING_CACHE_TTL_MS ≤ now - s2.loadedAt) →
      s2.loading = true → ensureSyncStep now s2 = (s2, EnsureAction.joined) := by
    intro s2 hs2 hl
    unfold ensureSyncStep
    rw [if_neg, if_pos hl]
    rcases hs2 with h | h
    · rintro ⟨h1, h2⟩; exact h1 h
    · rintro ⟨h1, h2⟩; omega
  have hrun : ∀ m (s2 : CacheState), (s2.cacheSize = 0 ∨ PRICING_CACHE_TTL_MS ≤ now - s2.loadedAt) →
      s2.loading = true → runEnsures now s2 m = (s2, List.replicate m EnsureAction.joined) := by
    intro m
    induction m with
    | zero => intro s2 _ _; rfl
    | succ k ih =>
      intro s2 hs2 hl
      have h1 := hstep s2 hs2 hl
      simp [runEnsures, h1, ih s2 hs2 hl, List.replicate_succ]
  have hfirst : ensureSyncStep now s = ({ s with loading := true }, EnsureAction.started) := by
    unfold ensureSyncStep
    rw [if_neg, if_neg]
    · rw [hnl]; exact Bool.false_ne_true
    · rcases hstale with h | h
      · rintro ⟨h1, h2⟩; exact h1 h
      · rintro ⟨h1, h2⟩; omega
  obtain ⟨m, rfl⟩ : ∃ m, n = m + 1 := ⟨n - 1, by omega⟩
  have hs2stale : ({ s with loading := true } : CacheState).cacheSize = 0 ∨
      PRICING_CACHE_TTL_MS ≤ now - ({ s with loading := true } : CacheState).loadedAt := hstale
  have hrest := hrun m { s with loading := true } hs2stale rfl
  refine ⟨?_, ?_, hstep⟩
  · simp [runEnsures, hfirst, hrest, List.count_replicate]
  · simp [runEnsures, hfirst, hrest]

theorem C10_single_flight_witness :
    ((runEnsures 0 { cacheSize := 0, loadedAt := 0, loading := false } 3).2.count
      EnsureAction.started) = 1 :=
  (C10_single_flight { cacheSize := 0, loadedAt := 0, loading := false } 0 3
    (Or.inl rfl) rfl (by decide)).1

section GroupingLemmas

variable {ρ γ κ : Type} [DecidableEq κ]
variable {key : ρ → κ} {gkey : γ → κ} {ini : ρ → γ} {upd : γ → ρ → γ}

lemma upsertGroup_keys (hini : ∀ r, gkey (ini r) = key r)
    (hupd : ∀ g r, gkey (upd g r) = gkey g) (gs : List γ) (r : ρ) :
    (upsertGroup key gkey ini upd gs r).map gkey =
      if key r ∈ gs.map gkey then gs.map gkey else gs.map gkey ++ [key r] := by
  induction gs with
  | nil => simp [upsertGroup, hini]
  | cons g gs ih =>
    by_cases h : gkey g = key r
    · simp [upsertGroup, h, hupd]
    · have h2 : ¬ key r = gkey g := fun e => h e.symm
      by_cases h3 : key r ∈ gs.map gkey <;>
        simp [upsertGroup, h, ih, h2, h3, List.mem_cons]

lemma foldl_upsert_keys_nodup (hini : ∀ r, gkey (ini r) = key r)
    (hupd : ∀ g r, gkey (upd g r) = gkey g) (records : List ρ) :
    ∀ gs : List γ, (gs.map gkey).Nodup →
      ((records.foldl (upsertGroup key gkey ini upd) gs).map gkey).Nodup := by
  induction records with
  | nil => intro gs h; simpa using h
  | cons r records ih =>
    intro gs h
    rw [List.foldl_cons]
    apply ih
    rw [upsertGroup_keys hini hupd]
    split
    · exact h
    · next h2 => simp [List.nodup_append, h, h2]

lemma groupAll_keys_nodup (hini : ∀ r, gkey (ini r) = key r)
    (hupd : ∀ g r, gkey (upd g r) = gkey g) (records : List ρ) :
    ((groupAll key gkey ini upd records).map gkey).Nodup :=
  foldl_upsert_keys_nodup hini hupd records [] (by simp)

lemma foldl_upsert_mem_keys (hini : ∀ r, gkey (ini r) = key r)
    (hupd : ∀ g r, gkey (upd g r) = gkey g) (records : List ρ) (k : κ) :
    ∀ gs : List γ, (k ∈ (records.foldl (upsertGroup key gkey ini upd) gs).map gkey ↔
      k ∈ gs.map gkey ∨ ∃ r ∈ records, key r = k) := by
  induction records with
  | nil => intro gs; simp
  | cons r records ih =>
    intro gs
    rw [List.foldl_cons, ih, upsertGroup_keys hini hupd]
    split
    · next h =>
      have h3 : key r = k → k ∈ gs.map gkey := fun e => e ▸ h
      constructor
      · rintro (hk | ⟨r2, hr2, hk⟩)
        · exact Or.inl hk
        · exact Or.inr ⟨r2, List.mem_cons_of_mem _ hr2, hk⟩
      · rintro (hk | ⟨r2, hr2, hk⟩)
        · exact Or.inl hk
        · rcases List.mem_cons.mp hr2 with rfl | hr3
          · exact Or.inl (h3 hk)
          · exact Or.inr ⟨r2, hr3, hk⟩
    · next h =>
      constructor
      · rintro (hk | ⟨r2, hr2, hk⟩)
        · rcases List.mem_append.mp hk with hk2 | hk2
          · exact Or.inl hk2
          · have he : k = key r := by simpa using hk2
            exact Or.inr ⟨r, List.mem_cons_self _ _, he.symm⟩
        · exact Or.inr ⟨r2, List.mem_cons_of_mem _ hr2, hk⟩
      · rintro (hk | ⟨r2, hr2, hk⟩)
        · exact Or.inl (List.mem_append.mpr (Or.inl hk))
        · rcases List.mem_cons.mp hr2 with rfl | hr3
          · exact Or.inl (List.mem_append.mpr (Or.inr (by simp [hk.symm])))
          · exact Or.inr ⟨r2, hr3, hk⟩

lemma groupAll_mem_keys (hini : ∀ r, gkey (ini r) = key r)
    (hupd : ∀ g r, gkey (upd g r) = gkey g) (records : List ρ) (k : κ) :
    k ∈ (groupAll key gkey ini upd records).map gkey ↔ ∃ r ∈ records, key r = k := by
  simpa using foldl_upsert_mem_keys hini hupd records k []

lemma groupAll_append_singleton (records : List ρ) (r : ρ) :
    groupAll key gkey ini upd (records ++ [r]) =
      upsertGroup key gkey ini upd (groupAll key gkey ini upd records) r := by
  simp [groupAll]

lemma mem_upsertGroup_cases {gs : List γ} {r : ρ} {g : γ}
    (hnd : (gs.map gkey).Nodup) (hg : g ∈ upsertGroup key gkey ini upd gs r) :
    (g ∈ gs ∧ gkey g ≠ key r) ∨
    (∃ g0, g0 ∈ gs ∧ gkey g0 = key r ∧ g = upd g0 r) ∨
    (key r ∉ gs.map gkey ∧ g = ini r) := by
  induction gs with
  | nil =>
    simp only [upsertGroup, List.mem_singleton] at hg
    exact Or.inr (Or.inr ⟨by simp, hg⟩)
  | cons b gs ih =>
    have hnd2 : (gs.map gkey).Nodup := (List.nodup_cons.mp (by simpa using hnd)).2
    have hbk : gkey b ∉ gs.map gkey := (List.nodup_cons.mp (by simpa using hnd)).1
    by_cases h : gkey b = key r
    · simp only [upsertGroup, if_pos h, List.mem_cons] at hg
      rcases hg with hg | hg
      · exact Or.inr (Or.inl ⟨b, List.mem_cons_self _ _, h, hg⟩)
      · refine Or.inl ⟨List.mem_cons_of_mem _ hg, fun he => hbk ?_⟩
        have : gkey g ∈ gs.map gkey := List.mem_map_of_mem gkey hg
        rw [he, ← h] at this
        exact this
    · simp only [upsertGroup, if_neg h, List.mem_cons] at hg
      rcases hg with hg | hg
      · exact Or.inl ⟨by simp [hg], by rw [hg]; exact h⟩
      · rcases ih hnd2 hg with ⟨h1, h2⟩ | ⟨g0, hg0, hk, he⟩ | ⟨hk, he⟩
        · exact Or.inl ⟨List.mem_cons_of_mem _ h1, h2⟩
        · exact Or.inr (Or.inl ⟨g0, List.mem_cons_of_mem _ hg0, hk, he⟩)
        · refine Or.inr (Or.inr ⟨?_, he⟩)
          simp only [List.map_cons, List.mem_cons]
          rintro (he2 | he2)
          · exact h he2.symm
          · exact hk he2

lemma groupAll_group_spec (hini : ∀ r, gkey (ini r) = key r)
    (hupd : ∀ g r, gkey (upd g r) = gkey g) (records : List ρ) :
    ∀ g ∈ groupAll key gkey ini upd records,
      ∃ r0 rs, records.filter (fun r => decide (key r = gkey g)) = r0 :: rs ∧
        g = rs.foldl upd (ini r0) := by
  induction records using List.reverseRecOn with
  | nil => intro g hg; simp [groupAll] at hg
  | append_singleton records r ih =>
    intro g hg
    rw [groupAll_append_singleton] at hg
    have hnd := groupAll_keys_nodup hini hupd records
    rcases mem_upsertGroup_cases hnd hg with ⟨h1, h2⟩ | ⟨g0, hg0, hk, he⟩ | ⟨hk, he⟩
    · obtain ⟨r0, rs, hf, hgf⟩ := ih g h1
      refine ⟨r0, rs, ?_, hgf⟩
      have hpred : decide (key r = gkey g) = false := by
        simp only [decide_eq_false_iff_not]
        exact fun e => h2 e.symm
      rw [List.filter_append, hf]
      simp [List.filter_cons, hpred]
    · obtain ⟨r0, rs, hf, hgf⟩ := ih g0 hg0
      have hgk : gkey g = gkey g0 := by rw [he, hupd]
      refine ⟨r0, rs ++ [r], ?_, ?_⟩
      · have hpred : decide (key r = gkey g) = true := by
          simp only [decide_eq_true_eq]
          rw [hgk, hk]
        rw [List.filter_append, hgk, hf]
        simp [List.filter_cons, hgk ▸ hpred]
      · rw [List.foldl_append, ← hgf, he, List.foldl_cons, List.foldl_nil]
    · have hgk : gkey g = key r := by rw [he, hini]
      refine ⟨r, [], ?_, by rw [he]; rfl⟩
      have hempty : records.filter (fun r2 => decide (key r2 = gkey g)) = [] := by
        rw [List.filter_eq_nil_iff]
        intro r2 hr2
        simp only [decide_eq_true_eq]
        intro he2
        apply hk
        rw [← hgk]
        exact (groupAll_mem_keys hini hupd records (gkey g)).mpr ⟨r2, hr2, he2⟩
      have hpred : decide (key r = gkey g) = true := by
        simp only [decide_eq_true_eq]; exact hgk.symm
      rw [List.filter_append, hempty]
      simp [List.filter_cons, hpred]

end GroupingLemmas

section SortingLemmas

variable {α : Type} (cond : α → α → Bool)

lemma insSorted_perm (a : α) (l : List α) : List.Perm (insSorted cond a l) (a :: l) := by
  induction l with
  | nil => exact List.Perm.refl _
  | cons b l ih =>
    by_cases h : cond b a
    · rw [insSorted, if_pos h]
      exact (ih.cons b).trans (List.Perm.swap a b l)
    · rw [insSorted, if_neg h]

lemma sortByCond_perm (l : List α) : List.Perm (sortByCond cond l) l := by
  induction l with
  | nil => exact List.Perm.refl _
  | cons a l ih =>
    rw [sortByCond]
    exact (insSorted_perm cond a _).trans (ih.cons a)

lemma insSorted_pairwise (le : α → α → Prop)
    (h1 : ∀ x y, cond x y = true → le x y) (h2 : ∀ x y, cond x y = false → le y x)
    (htr : ∀ x y z, le x y → le y z → le x z)
    (a : α) (l : List α) (hl : l.Pairwise le) : (insSorted cond a l).Pairwise le := by
  induction l with
  | nil => simp [insSorted]
  | cons b l ih =>
    rcases List.pairwise_cons.mp hl with ⟨hb, hl2⟩
    by_cases h : cond b a
    · rw [insSorted, if_pos h]
      refine List.pairwise_cons.mpr ⟨?_, ih hl2⟩
      intro y hy
      rcases List.mem_cons.mp ((insSorted_perm cond a l).mem_iff.mp hy) with rfl | hmem
      · exact h1 b y h
      · exact hb y hmem
    · rw [insSorted, if_neg h]
      have hab : le a b := h2 b a (by simpa using h)
      refine List.pairwise_cons.mpr ⟨?_, hl⟩
      intro y hy
      rcases List.mem_cons.mp hy with rfl | hmem
      · exact hab
      · exact htr a b y hab (hb y hmem)

lemma sortByCond_pairwise (le : α → α → Prop)
    (h1 : ∀ x y, cond x y = true → le x y) (h2 : ∀ x y, cond x y = false → le y x)
    (htr : ∀ x y z, le x y → le y z → le x z)
    (l : List α) : (sortByCond cond l).Pairwise le := by
  induction l with
  | nil => simp [sortByCond]
  | cons a l ih =>
    rw [sortByCond]
    exact insSorted_pairwise cond le h1 h2 htr a _ ih

end SortingLemmas

lemma dayFold_day (rs : List LogRecord) : ∀ g0 : DayGroup, (rs.foldl dayUpd g0).day = g0.day := by
  induction rs with
  | nil => intro g0; rfl
  | cons r rs ih => intro g0; rw [List.foldl_cons, ih]; rfl

lemma dayFold_hits (rs : List LogRecord) :
    ∀ g0 : DayGroup, (rs.foldl dayUpd g0).hits = g0.hits + rs.length := by
  induction rs with
  | nil => intro g0; simp
  | cons r rs ih =>
    intro g0
    rw [List.foldl_cons, ih]
    simp [dayUpd]
    omega

lemma dayFold_cost (rs : List LogRecord) :
    ∀ g0 : DayGroup, (rs.foldl dayUpd g0).cost = g0.cost + (rs.map recCost).sum := by
  induction rs with
  | nil => intro g0; simp
  | cons r rs ih =>
    intro g0
    rw [List.foldl_cons, ih]
    simp [dayUpd]
    ring

lemma groupDaily_stats (records : List LogRecord) {g : DayGroup} (hg : g ∈ groupDaily records) :
    g.hits = (records.filter (fun r => decide (recordDay r = g.day))).length ∧
    g.cost = ((records.filter (fun r => decide (recordDay r = g.day))).map recCost).sum := by
  have hg2 : g ∈ groupAll recordDay (fun g : DayGroup => g.day) dayIni dayUpd records := hg
  have hini : ∀ r : LogRecord, (dayIni r).day = recordDay r := fun r => rfl
  have hupd : ∀ (g2 : DayGroup) (r : LogRecord), (dayUpd g2 r).day = g2.day := fun g2 r => rfl
  obtain ⟨r0, rs, hf, he⟩ := groupAll_group_spec hini hupd records g hg2
  have hh : g.hits = (dayIni r0).hits + rs.length := by rw [he, dayFold_hits]
  have hc : g.cost = (dayIni r0).cost + (rs.map recCost).sum := by rw [he, dayFold_cost]
  constructor
  · rw [hh, hf]
    simp [dayIni]
    omega
  · rw [hc, hf]
    simp [dayIni]

lemma accumulateDaily_shape (t : Nat) (l : List DayGroup) :
    (accumulateDaily t l).map (fun a => (a.day, a.daily_hits, a.daily_cost)) =
      l.map (fun g => (g.day, g.hits, round3 g.cost)) := by
  induction l generalizing t with
  | nil => rfl
  | cons g l ih => simp [accumulateDaily, ih]

lemma accumulateDaily_running (l : List DayGroup) (t : Nat) :
    ∀ i, ∀ hi : i < (accumulateDaily t l).length,
      ((accumulateDaily t l).get ⟨i, hi⟩).accumulative_total =
        t + (((accumulateDaily t l).take (i + 1)).map (fun a => a.daily_hits)).sum := by
  induction l generalizing t with
  | nil => intro i hi; simp [accumulateDaily] at hi
  | cons g l ih =>
    intro i hi
    cases i with
    | zero => simp [accumulateDaily]
    | succ j =>
      have hj : j < (accumulateDaily (t + g.hits) l).length := by
        simpa [accumulateDaily] using hi
      have := ih (t + g.hits) j hj
      simp only [accumulateDaily, List.get_cons_succ, List.take_succ_cons, List.map_cons,
        List.sum_cons] at this ⊢
      rw [this]
      omega

/-- C5: the daily-usage query groups persisted records by the UTC calendar
day of createdAt, emits one aggregate per day sorted strictly ascending by
day, with dailyHits the record count of the day, dailyCost the day's cost
sum rounded to 3 decimals, and accumulativeTotal the running sum of
dailyHits over the sorted sequence; 3 records on day 1 and 2 records on day
2 yield exactly the claimed two aggregates. -/
theorem C5_daily_usage (records : List LogRecord) :
    ((dailyUsage records).map (fun a => a.day)).Nodup ∧
    (∀ d, d ∈ (dailyUsage records).map (fun a => a.day) ↔ d ∈ records.map recordDay) ∧
    (dailyUsage records).Pairwise (fun a b => a.day < b.day) ∧
    (∀ a ∈ dailyUsage records,
      a.daily_hits = (records.filter (fun r => decide (recordDay r = a.day))).length ∧
      a.daily_cost =
        round3 (((records.filter (fun r => decide (recordDay r = a.day))).map recCost).sum)) ∧
    (∀ i, ∀ hi : i < (dailyUsage records).length,
      ((dailyUsage records).get ⟨i, hi⟩).accumulative_total =
        (((dailyUsage records).take (i + 1)).map (fun a => a.daily_hits)).sum) ∧
    (dailyUsage recs5).map (fun a => (a.day, a.daily_hits, a.accumulative_total)) =
      [(1, 3, 3), (2, 2, 5)] := by
  have hini : ∀ r : LogRecord, (dayIni r).day = recordDay r := fun r => rfl
  have hupd : ∀ (g : DayGroup) (r : LogRecord), (dayUpd g r).day = g.day := fun g r => rfl
  have hperm : List.Perm (dailySorted records) (groupDaily records) := sortByCond_perm dayCond _
  have hshape : (dailyUsage records).map (fun a => (a.day, a.daily_hits, a.daily_cost)) =
      (dailySorted records).map (fun g => (g.day, g.hits, round3 g.cost)) :=
    accumulateDaily_shape 0 (dailySorted records)
  have hmapday : (dailyUsage records).map (fun a => a.day) =
      (dailySorted records).map (fun g => g.day) := by
    have h2 := congrArg (List.map (fun p : Nat × Nat × ℚ => p.1)) hshape
    simpa [List.map_map, Function.comp] using h2
  have hnodupG : ((groupDaily records).map (fun g => g.day)).Nodup :=
    groupAll_keys_nodup hini hupd records
  have hnodupS : ((dailySorted records).map (fun g => g.day)).Nodup :=
    ((hperm.map _).nodup_iff).mpr hnodupG
  refine ⟨?_, ?_, ?_, ?_, ?_, ?_⟩
  · rw [hmapday]; exact hnodupS
  · intro d
    rw [hmapday, List.Perm.mem_iff (hperm.map _)]
    have hA := groupAll_mem_keys hini hupd records d
    have hB : d ∈ records.map recordDay ↔ ∃ r ∈ records, recordDay r = d := List.mem_map
    exact hA.trans hB.symm
  · have hle : (dailySorted records).Pairwise (fun g g2 : DayGroup => g.day ≤ g2.day) := by
      apply sortByCond_pairwise dayCond
      · intro x y h
        simp only [dayCond, decide_eq_true_eq] at h
        omega
      · intro x y h
        simp only [dayCond, decide_eq_false_iff_not] at h
        omega
      · intro x y z h1 h2; omega
    have hne : (dailySorted records).Pairwise (fun g g2 : DayGroup => g.day ≠ g2.day) :=
      List.pairwise_map.mp hnodupS
    have hltS : (dailySorted records).Pairwise (fun g g2 : DayGroup => g.day < g2.day) := by
      have h5 := hle.and hne
      exact h5.imp (fun h => lt_of_le_of_ne h.1 h.2)
    have h3 : List.Pairwise (fun p q : Nat × Nat × ℚ => p.1 < q.1)
        ((dailyUsage records).map (fun a => (a.day, a.daily_hits, a.daily_cost))) := by
      rw [hshape]
      exact List.pairwise_map.mpr (hltS.imp (fun h => h))
    have h4 := List.pairwise_map.mp h3
    exact h4.imp (fun h => h)
  · intro a ha
    have hmem : (a.day, a.daily_hits, a.daily_cost) ∈
        (dailySorted records).map (fun g => (g.day, g.hits, round3 g.cost)) := by
      rw [← hshape]
      exact List.mem_map_of_mem _ ha
    obtain ⟨g, hgmem, htrip⟩ := List.mem_map.mp hmem
    have hgG : g ∈ groupDaily records := hperm.mem_iff.mp hgmem
    obtain ⟨hd, hh, hc⟩ : g.day = a.day ∧ g.hits = a.daily_hits ∧ round3 g.cost = a.daily_cost := by
      simpa [Prod.ext_iff] using htrip
    obtain ⟨hs1, hs2⟩ := groupDaily_stats records hgG
    constructor
    · rw [← hh, hs1, hd]
    · rw [← hc, hs2, hd]
  · intro i hi
    simpa using accumulateDaily_running (dailySorted records) 0 i hi
  · decide

theorem C5_daily_usage_witness :
    ∀ h0 : 0 < (dailyUsage recs5).length,
      ((dailyUsage recs5).get ⟨0, h0⟩).daily_hits =
        (recs5.filter
          (fun r => decide (recordDay r = ((dailyUsage recs5).get ⟨0, h0⟩).day))).length :=
  fun h0 =>
    (((C5_daily_usage recs5).2.2.2.1) ((dailyUsage recs5).get ⟨0, h0⟩)
      (List.get_mem _ _ _)).1

lemma svcFold_hits (cache : PricingCache) (rs : List LogRecord) :
    ∀ g0 : SvcGroup, (rs.foldl (svcUpd cache) g0).total_hits = g0.total_hits + rs.length := by
  induction rs with
  | nil => intro g0; simp
  | cons r rs ih =>
    intro g0
    rw [List.foldl_cons, ih]
    simp [svcUpd]
    omega

lemma svcGroups_stats (cache : PricingCache) (records : List LogRecord) {g : SvcGroup}
    (hg : g ∈ svcGroups cache records) :
    g.total_hits = (records.filter (fun r => decide (svcKey r = sgKey g))).length := by
  have hg2 : g ∈ groupAll svcKey sgKey (svcFirst cache) (svcUpd cache) records := hg
  have hini : ∀ r : LogRecord, sgKey (svcFirst cache r) = svcKey r := fun r => rfl
  have hupd : ∀ (g2 : SvcGroup) (r : LogRecord), sgKey (svcUpd cache g2 r) = sgKey g2 :=
    fun g2 r => rfl
  obtain ⟨r0, rs, hf, he⟩ := groupAll_group_spec hini hupd records g hg2
  have hh : g.total_hits = (svcFirst cache r0).total_hits + rs.length := by
    rw [he, svcFold_hits]
  rw [hh, hf]
  simp [svcFirst, svcUpd, svcZero]
  omega

/-- C6: the service-breakdown query aggregates the full record set by the
service::endpoint::user key, sorts the aggregates descending by totalHits,
caps the limit at 500, and applies offset and limit only to that aggregated,
already-sorted list (each returned aggregate counts hits over all records,
never over a pre-sliced subset); with aggregates ranked A:10, B:7, C:3 and
limit 1, offset 1, exactly the B aggregate is returned. -/
theorem C6_service_breakdown (cache : PricingCache) (records : List LogRecord)
    (limitQ offsetQ : Option Int) :
    servicesEndpoint cache records limitQ offsetQ =
      ((svcAggregatedSorted cache records).drop (servicesOffset offsetQ).toNat).take
        (servicesLimit limitQ).toNat ∧
    servicesLimit limitQ ≤ 500 ∧
    (svcAggregatedSorted cache records).Pairwise (fun a b => b.total_hits ≤ a.total_hits) ∧
    ((svcAggregatedSorted cache records).map saKey).Nodup ∧
    (∀ k, k ∈ (svcAggregatedSorted cache records).map saKey ↔ ∃ r ∈ records, svcKey r = k) ∧
    (∀ a ∈ svcAggregatedSorted cache records,
      a.total_hits = (records.filter (fun r => decide (svcKey r = saKey a))).length) ∧
    (servicesEndpoint [] recsABC (some 1) (some 1)).map
        (fun a => (a.service_name, a.total_hits)) = [("B", 7)] := by
  have hini : ∀ r : LogRecord, sgKey (svcFirst cache r) = svcKey r := fun r => rfl
  have hupd : ∀ (g : SvcGroup) (r : LogRecord), sgKey (svcUpd cache g r) = sgKey g :=
    fun g r => rfl
  have hperm : List.Perm (svcAggregatedSorted cache records)
      ((svcGroups cache records).map finalizeService) := sortByCond_perm svcCond _
  have hkeymap : ((svcGroups cache records).map finalizeService).map saKey =
      (svcGroups cache records).map sgKey := by
    rw [List.map_map]
    rfl
  refine ⟨rfl, ?_, ?_, ?_, ?_, ?_, ?_⟩
  · exact min_le_right _ _
  · apply sortByCond_pairwise svcCond
    · intro x y h
      simp only [svcCond, decide_eq_true_eq] at h
      omega
    · intro x y h
      simp only [svcCond, decide_eq_false_iff_not] at h
      omega
    · intro x y z h1 h2; omega
  · rw [List.Perm.nodup_iff (hperm.map saKey), hkeymap]
    exact groupAll_keys_nodup hini hupd records
  · intro k
    rw [List.Perm.mem_iff (hperm.map saKey), hkeymap]
    exact groupAll_mem_keys hini hupd records k
  · intro a ha
    have ha2 : a ∈ (svcGroups cache records).map finalizeService := hperm.mem_iff.mp ha
    obtain ⟨g, hgmem, hfg⟩ := List.mem_map.mp ha2
    have h1 : a.total_hits = g.total_hits := by rw [← hfg]; rfl
    have h2 : saKey a = sgKey g := by rw [← hfg]; rfl
    rw [h1, h2]
    exact svcGroups_stats cache records hgmem
  · decide

theorem C6_service_breakdown_witness :
    ∀ h0 : 0 < (svcAggregatedSorted [] recsABC).length,
      ((svcAggregatedSorted [] recsABC).get ⟨0, h0⟩).total_hits =
        (recsABC.filter (fun r =>
          decide (svcKey r = saKey ((svcAggregatedSorted [] recsABC).get ⟨0, h0⟩)))).length :=
  fun h0 =>
    ((C6_service_breakdown [] recsABC (some 1) (some 1)).2.2.2.2.2.1)
      ((svcAggregatedSorted [] recsABC).get ⟨0, h0⟩) (List.get_mem _ _ _)
